import Mathlib

/-!
Verification of the Calendar Bulk Delete background deletion engine.

Shallow embedding of the background service worker
(`MessageRouter.performBulkDeletion`, `MessageRouter.deleteEvent`,
`MessageRouter.isRetryableError`, `RateLimiter.acquire`) and of the popup
event filter (`updateFilteredEvents` in popup.js). Asynchronous effects
(fetch responses, promise settlement, timer waits) are passed in explicitly
as environment data; machine integers do not occur (all arithmetic is on
Nat and Int timestamps and lengths, which JS numbers represent exactly at
these magnitudes).
-/

namespace CalendarBulkDelete

/-- Model of a JavaScript `Error` value as it is consumed by
`isRetryableError`: the `message` string, and the `status` property, which
is `none` when the property is absent (reads as `undefined` in JS). The
errors thrown by `deleteEvent` are built with `new Error(message)` and
therefore carry no `status` property. -/
structure JSError where
  status : Option Nat
  message : String
deriving DecidableEq, Repr

/-- Test whether `needle` is a leading segment of `hay`. -/
def leadsWith : List Char → List Char → Bool
  | [], _ => true
  | _ :: _, [] => false
  | a :: as, b :: bs => a = b && leadsWith as bs

/-- Test whether `needle` occurs contiguously somewhere in `hay`. -/
def occursIn (needle : List Char) : List Char → Bool
  | [] => leadsWith needle []
  | c :: rest => leadsWith needle (c :: rest) || occursIn needle rest

/-- Model of the JS `String.prototype.includes` check: `strIncludes hay
needle` is true when `needle` occurs as a contiguous substring of `hay`. -/
def strIncludes (hay needle : String) : Bool :=
  occursIn needle.data hay.data

/-- Embedding of `MessageRouter.isRetryableError` (background script):
`retryableCodes.includes(error.status) || error.message.includes('network')
|| error.message.includes('timeout')` with `retryableCodes = [429, 500,
502, 503, 504]`. When the error has no `status` property the `includes`
test on the code list is false (JS: `[...].includes(undefined)` is
`false`). -/
def isRetryableError (error : JSError) : Bool :=
  (match error.status with
   | some s => [429, 500, 502, 503, 504].contains s
   | none => false)
  || strIncludes error.message "network"
  || strIncludes error.message "timeout"

/-- Result of one `fetch` attempt inside `deleteEvent`: either a response
(with its `ok` flag, numeric `status` and `statusText`), or a rejection of
the fetch promise itself (network-level failure). -/
inductive FetchResult where
  | res (ok : Bool) (status : Nat) (statusText : String)
  | reject (reason : JSError)
deriving DecidableEq, Repr

/-- Embedding of `MessageRouter.deleteEvent`. The environment supplies one
`FetchResult` per attempt, in order. Per the source: a response with
`ok = true` resolves with the eventId; a 401 response removes the cached
token and recurses (the recursion is the whole retry logic: the source has
no retry counter); any other non-ok response throws
`new Error("HTTP " ++ status ++ ": " ++ statusText)`, a plain `Error`
without a `status` property; a fetch rejection propagates. `none` means
the modelled attempt budget was exhausted while the code was still
retrying (the source would keep issuing further requests). Token
acquisition is modelled as always succeeding, which the claims treated
here do not depend on. -/
def deleteEvent (eventId : String) : List FetchResult → Option (Except JSError String)
  | [] => none
  | FetchResult.reject reason :: _ => some (Except.error reason)
  | FetchResult.res ok status statusText :: rest =>
    if ok then
      some (Except.ok eventId)
    else if status = 401 then
      deleteEvent eventId rest
    else
      some (Except.error ⟨none, "HTTP " ++ toString status ++ ": " ++ statusText⟩)

/-- Candidate event record as handed to `performBulkDeletion` (fields read
by the engine: `domEventId`, `actualEventId`, `calendarId`, `title`). -/
structure CandidateEvent where
  domEventId : String
  actualEventId : String
  calendarId : String
  title : String
deriving DecidableEq, Repr

/-- Settled outcome of one per-event promise
(`rateLimiter.acquire(); deleteEvent(...)`) as observed by
`Promise.allSettled`: fulfilled, or rejected with the thrown error. -/
inductive Outcome where
  | fulfilled
  | rejected (reason : JSError)
deriving DecidableEq, Repr

/-- Entry pushed onto `results.successful`:
`{ domEventId, actualEventId, title }`. -/
structure SuccessEntry where
  domEventId : String
  actualEventId : String
  title : String
deriving DecidableEq, Repr

/-- Entry pushed onto `results.failed`:
`{ domEventId, actualEventId, title, error, retryable }`. -/
structure FailureEntry where
  domEventId : String
  actualEventId : String
  title : String
  error : String
  retryable : Bool
deriving DecidableEq, Repr

/-- The `results` accumulator of `performBulkDeletion`. -/
structure Report where
  successful : List SuccessEntry
  failed : List FailureEntry
deriving DecidableEq, Repr

/-- Success entry built in the fulfilled branch of the settlement loop. -/
def mkSuccess (e : CandidateEvent) : SuccessEntry :=
  ⟨e.domEventId, e.actualEventId, e.title⟩

/-- Failure entry built in the rejected branch of the settlement loop:
`error` is `result.reason.message` and `retryable` is
`isRetryableError(result.reason)`. -/
def mkFailure (e : CandidateEvent) (reason : JSError) : FailureEntry :=
  ⟨e.domEventId, e.actualEventId, e.title, reason.message, isRetryableError reason⟩

/-- Failure entry built in the `catch (batchError)` branch: `error` is the
engine fault message and `retryable` is hard-coded `true`. -/
def mkFaultFailure (e : CandidateEvent) (msg : String) : FailureEntry :=
  ⟨e.domEventId, e.actualEventId, e.title, msg, true⟩

/-- Embedding of the `batchResults.forEach` settlement loop: walks the
chunk in submission (index) order and appends each event either to
`successful` or to `failed` according to its settled outcome. -/
def classifyBatch : List (CandidateEvent × Outcome) → Report → Report
  | [], r => r
  | (e, Outcome.fulfilled) :: rest, r =>
    classifyBatch rest { r with successful := r.successful ++ [mkSuccess e] }
  | (e, Outcome.rejected reason) :: rest, r =>
    classifyBatch rest { r with failed := r.failed ++ [mkFailure e reason] }

/-- Embedding of one iteration of the chunk loop body: when the chunk-level
orchestration throws (`fault i = some msg`, the `catch (batchError)` path)
every event of the chunk is appended to `failed` with the fault message and
`retryable = true`; otherwise the settled outcomes are classified. -/
def processChunk (fault : Nat → Option String) (i : Nat)
    (batch : List (CandidateEvent × Outcome)) (r : Report) : Report :=
  match fault i with
  | some msg => { r with failed := r.failed ++ batch.map (fun p => mkFaultFailure p.1 msg) }
  | none => classifyBatch batch r

/-- Fuel-indexed helper for `chunksOf`; the fuel only bounds the number of
loop iterations (it is always instantiated with the list length, which
suffices) and keeps the recursion structural. -/
def chunksOfAux (b : Nat) : Nat → List α → List (List α)
  | _, [] => []
  | 0, _ :: _ => []
  | fuel + 1, x :: xs => (x :: xs).take b :: chunksOfAux b fuel (xs.drop (b - 1))

/-- Embedding of `events.slice(i, i + batchSize)` over the whole `for`
loop: the list of consecutive chunks of size at most `b`. The source loop
always runs with a positive `batchSize` (the constant 10); the theorems
about this function carry the hypothesis `1 ≤ b`. -/
def chunksOf (b : Nat) (l : List α) : List (List α) :=
  chunksOfAux b l.length l

/-- The sequential chunk loop of `performBulkDeletion`: chunk `i` is fully
settled and classified (its `processChunk`) before chunk `i + 1` starts. -/
def runChunks (fault : Nat → Option String) :
    Nat → List (List (CandidateEvent × Outcome)) → Report → Report
  | _, [], r => r
  | i, c :: cs, r => runChunks fault (i + 1) cs (processChunk fault i c r)

/-- Embedding of `MessageRouter.performBulkDeletion`. Each input event is
paired with the settled outcome of its deletion promise (the environment);
`fault` gives, per chunk index, the engine-level exception message when the
chunk orchestration throws before settlement. The source pins
`batchSize = 10`; it is a parameter here so the chunking claims can be
stated for every positive size. -/
def performBulkDeletion (fault : Nat → Option String) (batchSize : Nat)
    (events : List (CandidateEvent × Outcome)) : Report :=
  runChunks fault 0 (chunksOf batchSize events) ⟨[], []⟩

/-- The successful entries a fault-free chunk contributes, in submission
order. -/
def succOf (c : List (CandidateEvent × Outcome)) : List SuccessEntry :=
  c.filterMap (fun p =>
    match p.2 with
    | Outcome.fulfilled => some (mkSuccess p.1)
    | Outcome.rejected _ => none)

/-- The failed entries a fault-free chunk contributes, in submission
order. -/
def failOf (c : List (CandidateEvent × Outcome)) : List FailureEntry :=
  c.filterMap (fun p =>
    match p.2 with
    | Outcome.fulfilled => none
    | Outcome.rejected reason => some (mkFailure p.1 reason))

/-- Specification of the `successful` sequence accumulated over a list of
chunks starting at chunk index `i`. -/
def chunksSucc (fault : Nat → Option String) :
    Nat → List (List (CandidateEvent × Outcome)) → List SuccessEntry
  | _, [] => []
  | i, c :: cs =>
    (match fault i with
     | some _ => []
     | none => succOf c) ++ chunksSucc fault (i + 1) cs

/-- Specification of the `failed` sequence accumulated over a list of
chunks starting at chunk index `i`. -/
def chunksFail (fault : Nat → Option String) :
    Nat → List (List (CandidateEvent × Outcome)) → List FailureEntry
  | _, [] => []
  | i, c :: cs =>
    (match fault i with
     | some msg => c.map (fun p => mkFaultFailure p.1 msg)
     | none => failOf c) ++ chunksFail fault (i + 1) cs

/-- Event record as consumed by the popup filter `updateFilteredEvents`:
`canDelete` (read-only events are skipped), `title`, and `startTime`
(`none` when the field is absent or falsy, i.e. the start time is
unknown; `some t` is the numeric value of `new Date(event.startTime)`). -/
structure PopupEvent where
  id : String
  title : String
  canDelete : Bool
  startTime : Option Int
deriving DecidableEq, Repr

/-- Raw filter inputs as read from the dialog controls:
`titleFilter.value`, and the two date inputs, `none` when the input value
is an empty string (falsy), otherwise the numeric value of
`new Date(value)`. -/
structure FilterCriteria where
  titleFilterValue : String
  fromDate : Option Int
  toDate : Option Int
deriving DecidableEq, Repr

/-- Lowercase model of case folding: JS `toLowerCase` mapped over the
characters of the string. -/
def jsToLower (s : String) : String :=
  ⟨s.data.map Char.toLower⟩

/-- Embedding of the arrow predicate inside `updateFilteredEvents`
(popup.js): skip events with falsy `canDelete`; with a non-empty (after
`toLowerCase().trim()`) keyword, drop events whose lowercased title does
not include it; when the start time is known, drop events strictly before
`fromDate` or strictly after `toDate`; events with unknown start time skip
the date checks. -/
def retainEvent (c : FilterCriteria) (e : PopupEvent) : Bool :=
  if !e.canDelete then
    false
  else
    let titleKeyword := (jsToLower c.titleFilterValue).trim
    if titleKeyword ≠ "" && !(strIncludes (jsToLower e.title) titleKeyword) then
      false
    else
      match e.startTime with
      | some t =>
        if (match c.fromDate with | some f => decide (t < f) | none => false) then
          false
        else if (match c.toDate with | some g => decide (g < t) | none => false) then
          false
        else
          true
      | none => true

/-- Embedding of `updateFilteredEvents`: `allEvents.filter(event => ...)`,
a stable filter over the input list. -/
def updateFilteredEvents (c : FilterCriteria) (allEvents : List PopupEvent) :
    List PopupEvent :=
  allEvents.filter (retainEvent c)

/-- Embedding of `RateLimiter.acquire`. State is the `requests` timestamp
list; `nows` supplies the value of `Date.now()` observed at each pass of
the retry recursion (the `setTimeout` wait is abstracted into the gap
between successive entries). Each pass prunes timestamps outside the
window (`now - time < windowMs` kept), retries when the pruned list has
reached `maxRequests`, and otherwise records `now` and returns the new
state. `none` means the modelled pass budget ran out while the limiter
was still waiting. -/
def acquire (maxRequests : Nat) (windowMs : Int) :
    List Int → List Int → Option (List Int)
  | [], _ => none
  | now :: laterNows, requests =>
    let pruned := requests.filter (fun time => now - time < windowMs)
    if maxRequests ≤ pruned.length then
      acquire maxRequests windowMs laterNows pruned
    else
      some (pruned ++ [now])

/-- Retention condition of claim C7, stated the way the spec words it (to
be compared with the source-shaped predicate `retainEvent`): eligible, and
no keyword or a case-insensitive title match, and each date bound holds
whenever it is set and the start time is known; events with unknown start
time are never excluded by the date filters. -/
def RetainSpec (c : FilterCriteria) (e : PopupEvent) : Prop :=
  e.canDelete = true ∧
  ((jsToLower c.titleFilterValue).trim = "" ∨
    strIncludes (jsToLower e.title) ((jsToLower c.titleFilterValue).trim) = true) ∧
  (∀ f t, c.fromDate = some f → e.startTime = some t → f ≤ t) ∧
  (∀ g t, c.toDate = some g → e.startTime = some t → t ≤ g)

/-- Test fixture in the shape of the repo test events (`event1` ...):
candidate with derived dom id and title. -/
def wEvent (n : String) : CandidateEvent :=
  ⟨"dom-" ++ n, n, "primary", "Title " ++ n⟩

/-- Test fixture: a non-retryable HTTP rejection as thrown by
`deleteEvent` on a 403 response. -/
def wErr : JSError :=
  ⟨none, "HTTP 403: Forbidden"⟩

/-- Test fixture: five events with mixed settled outcomes. -/
def wEvents : List (CandidateEvent × Outcome) :=
  [(wEvent "e1", Outcome.fulfilled),
   (wEvent "e2", Outcome.rejected wErr),
   (wEvent "e3", Outcome.fulfilled),
   (wEvent "e4", Outcome.rejected wErr),
   (wEvent "e5", Outcome.fulfilled)]

/-- Test fixture: engine fault on chunk 1 only. -/
def wFault : Nat → Option String :=
  fun i => if i = 1 then some "engine failure" else none

/-- Test fixture: no engine fault on any chunk. -/
def wNoFault : Nat → Option String :=
  fun _ => none

/-- Test fixture matching the spec scenario of a chunk of three where the
second event errors. -/
def wThree : List (CandidateEvent × Outcome) :=
  [(wEvent "e1", Outcome.fulfilled),
   (wEvent "e2", Outcome.rejected wErr),
   (wEvent "e3", Outcome.fulfilled)]

theorem chunksOfAux_congr (b : Nat) :
    ∀ (fuel₁ fuel₂ : Nat) (l : List α), l.length ≤ fuel₁ → l.length ≤ fuel₂ →
      chunksOfAux b fuel₁ l = chunksOfAux b fuel₂ l := by
  intro fuel₁
  induction fuel₁ with
  | zero =>
    intro fuel₂ l h₁ _
    have : l = [] := List.eq_nil_of_length_eq_zero (Nat.le_zero.mp h₁)
    subst this
    cases fuel₂ <;> rfl
  | succ f ih =>
    intro fuel₂ l h₁ h₂
    cases l with
    | nil => cases fuel₂ <;> rfl
    | cons x xs =>
      cases fuel₂ with
      | zero => simp at h₂
      | succ g =>
        simp only [chunksOfAux]
        have hd : (xs.drop (b - 1)).length ≤ xs.length := by
          simp [List.length_drop]
        have hf : (xs.drop (b - 1)).length ≤ f := by
          simp only [List.length_cons] at h₁
          omega
        have hg : (xs.drop (b - 1)).length ≤ g := by
          simp only [List.length_cons] at h₂
          omega
        rw [ih _ _ hf hg]

theorem chunksOf_nil (b : Nat) : chunksOf b ([] : List α) = [] := rfl

theorem chunksOf_cons (b : Nat) (x : α) (xs : List α) :
    chunksOf b (x :: xs) = (x :: xs).take b :: chunksOf b (xs.drop (b - 1)) := by
  unfold chunksOf
  simp only [List.length_cons, chunksOfAux]
  rw [chunksOfAux_congr b xs.length (xs.drop (b - 1)).length (xs.drop (b - 1))]
  · simp [List.length_drop]
  · exact Nat.le_refl _

theorem drop_pred_cons (b : Nat) (hb : 1 ≤ b) (x : α) (xs : List α) :
    xs.drop (b - 1) = (x :: xs).drop b := by
  cases b with
  | zero => omega
  | succ k => simp

/-- Induction principle matching the recursion pattern of `chunksOf` for
positive chunk size. -/
theorem chunksOf_induction (b : Nat) (hb : 1 ≤ b)
    (motive : List α → Prop)
    (hnil : motive [])
    (hcons : ∀ x xs, motive ((x :: xs).drop b) → motive (x :: xs)) :
    ∀ l : List α, motive l := by
  have H : ∀ (n : Nat) (l : List α), l.length ≤ n → motive l := by
    intro n
    induction n with
    | zero =>
      intro l h
      have : l = [] := List.eq_nil_of_length_eq_zero (Nat.le_zero.mp h)
      subst this
      exact hnil
    | succ n ih =>
      intro l h
      cases l with
      | nil => exact hnil
      | cons x xs =>
        refine hcons x xs (ih _ ?_)
        simp only [List.length_cons] at h
        simp only [List.length_drop, List.length_cons]
        omega
  exact fun l => H l.length l (Nat.le_refl _)

theorem chunksOf_flatten (b : Nat) (hb : 1 ≤ b) (l : List α) :
    (chunksOf b l).flatten = l := by
  induction l using chunksOf_induction b hb with
  | hnil => rfl
  | hcons x xs ih =>
    rw [chunksOf_cons, drop_pred_cons b hb x xs]
    simp only [List.flatten_cons, ih]
    exact List.take_append_drop b (x :: xs)

theorem classifyBatch_spec (c : List (CandidateEvent × Outcome)) (r : Report) :
    classifyBatch c r = ⟨r.successful ++ succOf c, r.failed ++ failOf c⟩ := by
  induction c generalizing r with
  | nil => simp [classifyBatch, succOf, failOf]
  | cons p rest ih =>
    obtain ⟨e, o⟩ := p
    cases o with
    | fulfilled =>
      simp [classifyBatch, ih, succOf, failOf, List.filterMap_cons]
    | rejected reason =>
      simp [classifyBatch, ih, succOf, failOf, List.filterMap_cons]

theorem runChunks_spec (fault : Nat → Option String)
    (cs : List (List (CandidateEvent × Outcome))) (i : Nat) (r : Report) :
    runChunks fault i cs r =
      ⟨r.successful ++ chunksSucc fault i cs, r.failed ++ chunksFail fault i cs⟩ := by
  induction cs generalizing i r with
  | nil => simp [runChunks, chunksSucc, chunksFail]
  | cons c rest ih =>
    simp only [runChunks, processChunk, chunksSucc, chunksFail]
    cases hf : fault i with
    | some msg => simp [ih, hf]
    | none => simp [ih, hf, classifyBatch_spec]

theorem succOf_failOf_length (c : List (CandidateEvent × Outcome)) :
    (succOf c).length + (failOf c).length = c.length := by
  induction c with
  | nil => rfl
  | cons p rest ih =>
    obtain ⟨e, o⟩ := p
    cases o with
    | fulfilled => simp [succOf, failOf, List.filterMap_cons] at ih ⊢; omega
    | rejected reason => simp [succOf, failOf, List.filterMap_cons] at ih ⊢; omega

theorem chunks_length (fault : Nat → Option String)
    (cs : List (List (CandidateEvent × Outcome))) (i : Nat) :
    (chunksSucc fault i cs).length + (chunksFail fault i cs).length =
      cs.flatten.length := by
  induction cs generalizing i with
  | nil => rfl
  | cons c rest ih =>
    simp only [chunksSucc, chunksFail, List.flatten_cons, List.length_append]
    cases hf : fault i with
    | some msg =>
      have := ih (i + 1)
      simp only [List.length_nil, List.length_map]
      omega
    | none =>
      have h1 := succOf_failOf_length c
      have := ih (i + 1)
      dsimp only
      omega

theorem succOf_append (c₁ c₂ : List (CandidateEvent × Outcome)) :
    succOf (c₁ ++ c₂) = succOf c₁ ++ succOf c₂ := by
  simp [succOf, List.filterMap_append]

theorem failOf_append (c₁ c₂ : List (CandidateEvent × Outcome)) :
    failOf (c₁ ++ c₂) = failOf c₁ ++ failOf c₂ := by
  simp [failOf, List.filterMap_append]

theorem chunksSucc_fault_free (fault : Nat → Option String)
    (hf : ∀ j, fault j = none)
    (cs : List (List (CandidateEvent × Outcome))) (i : Nat) :
    chunksSucc fault i cs = succOf cs.flatten := by
  induction cs generalizing i with
  | nil => rfl
  | cons c rest ih =>
    simp [chunksSucc, hf i, List.flatten_cons, succOf_append, ih (i + 1)]

theorem chunksFail_fault_free (fault : Nat → Option String)
    (hf : ∀ j, fault j = none)
    (cs : List (List (CandidateEvent × Outcome))) (i : Nat) :
    chunksFail fault i cs = failOf cs.flatten := by
  induction cs generalizing i with
  | nil => rfl
  | cons c rest ih =>
    simp [chunksFail, hf i, List.flatten_cons, failOf_append, ih (i + 1)]

/-- Claim C2 (code evaluation): a deletion rejected with HTTP status 429
is NOT classified retryable by the code. `deleteEvent` throws a plain
`Error` whose message is "HTTP 429: Too Many Requests" and which carries
no `status` property, so `isRetryableError` finds neither a retryable
status code nor the substrings "network"/"timeout", and the bulk run
records the failure with `retryable = false` — against the claim that a
429 rejection yields `retryable: true`. -/
theorem deleteEvent_http429_not_retryable :
    deleteEvent "event-1" [FetchResult.res false 429 "Too Many Requests"] =
      some (Except.error ⟨none, "HTTP 429: Too Many Requests"⟩) ∧
    performBulkDeletion (fun _ => none) 10
      [(⟨"dom-1", "event-1", "primary", "Title 1"⟩,
        Outcome.rejected ⟨none, "HTTP 429: Too Many Requests"⟩)] =
      ⟨[], [⟨"dom-1", "event-1", "Title 1", "HTTP 429: Too Many Requests", false⟩]⟩ :=
  ⟨rfl, rfl⟩

/-- Claim C3 (code evaluation): `deleteEvent` does not stop after a second
authorization failure. After two consecutive 401 responses the code is
still retrying (no error has propagated), and a third attempt is issued
and can succeed — against the claim that the retry happens exactly once
and a second authorization failure propagates as a fatal error. -/
theorem deleteEvent_retries_past_second_401 :
    deleteEvent "event-1" [FetchResult.res false 401 "Unauthorized",
      FetchResult.res false 401 "Unauthorized"] = none ∧
    deleteEvent "event-1" [FetchResult.res false 401 "Unauthorized",
      FetchResult.res false 401 "Unauthorized",
      FetchResult.res true 204 "No Content"] = some (Except.ok "event-1") :=
  ⟨rfl, rfl⟩

/-- Claim C8: after every successful `acquire`, the recorded timestamp
list has length at most `maxRequests`, and so does any pruning of it
(pruning only removes elements). Quantifying over the starting `requests`
state covers every sequence of acquire calls, since each successful call
returns the state the next call starts from. -/
theorem acquire_length_le (m : Nat) (w : Int) (nows requests s : List Int)
    (_hm : 1 ≤ m) (h : acquire m w nows requests = some s) :
    s.length ≤ m ∧ ∀ now : Int, (s.filter (fun t => now - t < w)).length ≤ m := by
  have hlen : s.length ≤ m := by
    induction nows generalizing requests with
    | nil => simp [acquire] at h
    | cons now laterNows ih =>
      rw [acquire] at h
      split at h
      · exact ih _ h
      · rename_i hlt
        cases h
        simp only [List.length_append, List.length_cons, List.length_nil]
        omega
  exact ⟨hlen, fun now => le_trans (List.length_filter_le _ s) hlen⟩

/-- Witness for `acquire_length_le` at a concrete acquisition: starting
from two recorded timestamps 0 and 1 in a window of 1000, a call at time
1001 prunes both and records 1001. -/
theorem acquire_length_le_witness :
    ([(1001 : Int)] : List Int).length ≤ 2 ∧
    (([(1001 : Int)] : List Int).filter (fun t => (1500 : Int) - t < 1000)).length ≤ 2 := by
  have h := acquire_length_le 2 1000 [1001] [0, 1] [1001] (by decide) (by decide)
  exact ⟨h.1, h.2 1500⟩

/-- Claim C9: the event filter is idempotent — filtering an already
filtered list with the same criteria returns it unchanged. -/
theorem updateFilteredEvents_idempotent (c : FilterCriteria) (evs : List PopupEvent) :
    updateFilteredEvents c (updateFilteredEvents c evs) = updateFilteredEvents c evs := by
  unfold updateFilteredEvents
  induction evs with
  | nil => rfl
  | cons e rest ih =>
    by_cases hre : retainEvent c e = true
    · simp [List.filter_cons, hre, ih]
    · simp only [Bool.not_eq_true] at hre
      simp [List.filter_cons, hre, ih]

theorem ceil_step (b n : Nat) (hb : 1 ≤ b) (hn : 1 ≤ n) :
    (n + b - 1) / b = (n - b + b - 1) / b + 1 := by
  have h1 : n + b - 1 = (n - 1) + b := by omega
  rw [h1, Nat.add_div_right _ (by omega : 0 < b)]
  rcases Nat.lt_or_ge n b with h | h
  · have h2 : n - b = 0 := by omega
    have h3 : (n - 1) / b = 0 := Nat.div_eq_of_lt (by omega)
    have h4 : (0 + b - 1) / b = 0 := Nat.div_eq_of_lt (by omega)
    rw [h2, h3, h4]
  · have h2 : n - b + b - 1 = n - 1 := by omega
    rw [h2]

theorem chunksOf_length_eq (b : Nat) (hb : 1 ≤ b) (l : List α) :
    (chunksOf b l).length = (l.length + b - 1) / b := by
  induction l using chunksOf_induction b hb with
  | hnil =>
    simp only [chunksOf_nil, List.length_nil]
    exact (Nat.div_eq_of_lt (by omega)).symm
  | hcons x xs ih =>
    rw [chunksOf_cons, drop_pred_cons b hb x xs]
    simp only [List.length_cons, ih, List.length_drop]
    rw [ceil_step b (xs.length + 1) hb (by omega)]

theorem chunksOf_chunk_le (b : Nat) (hb : 1 ≤ b) (l : List α) :
    ∀ c ∈ chunksOf b l, c.length ≤ b := by
  induction l using chunksOf_induction b hb with
  | hnil => intro c hc; simp [chunksOf_nil] at hc
  | hcons x xs ih =>
    intro c hc
    rw [chunksOf_cons, drop_pred_cons b hb x xs] at hc
    rcases List.mem_cons.mp hc with h | h
    · subst h; exact List.length_take_le b (x :: xs)
    · exact ih c h

theorem chunksOf_eq_nil_iff (b : Nat) (l : List α) :
    chunksOf b l = [] ↔ l = [] := by
  cases l with
  | nil => simp [chunksOf_nil]
  | cons x xs => rw [chunksOf_cons]; simp

theorem chunksOf_dropLast_full (b : Nat) (hb : 1 ≤ b) (l : List α) :
    ∀ c ∈ (chunksOf b l).dropLast, c.length = b := by
  induction l using chunksOf_induction b hb with
  | hnil => intro c hc; simp [chunksOf_nil] at hc
  | hcons x xs ih =>
    intro c hc
    rw [chunksOf_cons, drop_pred_cons b hb x xs] at hc
    cases hrest : chunksOf b ((x :: xs).drop b) with
    | nil => rw [hrest] at hc; simp at hc
    | cons c₀ cs =>
      rw [hrest, List.dropLast_cons₂] at hc
      rcases List.mem_cons.mp hc with h | h
      · subst h
        have hne : (x :: xs).drop b ≠ [] := by
          intro hnil
          rw [hnil, chunksOf_nil] at hrest
          exact List.noConfusion hrest
        have hlen : b < (x :: xs).length := by
          by_contra hcon
          exact hne (List.drop_eq_nil_of_le (by omega))
        rw [List.length_take]
        omega
      · rw [← hrest] at h
        exact ih c h

/-- Claim C1: every input event lands in exactly one of `successful` and
`failed`, for every pattern of per-event outcomes and chunk-level faults:
the lengths of the two report sequences sum to the input length. -/
theorem performBulkDeletion_partition (fault : Nat → Option String) (b : Nat)
    (events : List (CandidateEvent × Outcome)) (hb : 1 ≤ b) :
    (performBulkDeletion fault b events).successful.length +
      (performBulkDeletion fault b events).failed.length = events.length := by
  unfold performBulkDeletion
  rw [runChunks_spec]
  simp only [List.nil_append]
  rw [chunks_length]
  rw [chunksOf_flatten b hb]

/-- Witness for `performBulkDeletion_partition`: five events, mixed
outcomes, an engine fault on chunk 1, batch size 2. -/
theorem performBulkDeletion_partition_witness :
    (performBulkDeletion wFault 2 wEvents).successful.length +
      (performBulkDeletion wFault 2 wEvents).failed.length = 5 :=
  performBulkDeletion_partition wFault 2 wEvents (by decide)

/-- Claim C4: the engine partitions the input into `ceil(N/B)` consecutive
chunks of at most `B` events (only the last chunk may be shorter), the
concatenation of the chunks in order is the input, and the report is
accumulated chunk by chunk in chunk order (the entries of chunk `i`
precede those of chunk `i + 1` in both sequences). -/
theorem performBulkDeletion_chunking (fault : Nat → Option String) (b : Nat)
    (events : List (CandidateEvent × Outcome)) (hb : 1 ≤ b) :
    (chunksOf b events).length = (events.length + b - 1) / b ∧
    (∀ c ∈ chunksOf b events, c.length ≤ b) ∧
    (∀ c ∈ (chunksOf b events).dropLast, c.length = b) ∧
    (chunksOf b events).flatten = events ∧
    (performBulkDeletion fault b events).successful =
      chunksSucc fault 0 (chunksOf b events) ∧
    (performBulkDeletion fault b events).failed =
      chunksFail fault 0 (chunksOf b events) := by
  refine ⟨chunksOf_length_eq b hb events, chunksOf_chunk_le b hb events,
    chunksOf_dropLast_full b hb events, chunksOf_flatten b hb events, ?_, ?_⟩
  · unfold performBulkDeletion
    rw [runChunks_spec]
    simp
  · unfold performBulkDeletion
    rw [runChunks_spec]
    simp

/-- Witness for `performBulkDeletion_chunking`: five events and batch size
2 give three chunks; the first chunk is full; the flattening and the
chunk-ordered report characterization hold on the fixture. -/
theorem performBulkDeletion_chunking_witness :
    (chunksOf 2 wEvents).length = (wEvents.length + 2 - 1) / 2 ∧
    ((chunksOf 2 wEvents).getD 0 []).length ≤ 2 ∧
    (chunksOf 2 wEvents).flatten = wEvents ∧
    (performBulkDeletion wFault 2 wEvents).successful =
      chunksSucc wFault 0 (chunksOf 2 wEvents) := by
  have h := performBulkDeletion_chunking wFault 2 wEvents (by decide)
  exact ⟨h.1, h.2.1 _ (by decide), h.2.2.2.1, h.2.2.2.2.1⟩

/-- Claim C5: settle-all semantics within fault-free chunks — every event
whose delete attempt succeeded appears in `successful` and every event
whose attempt failed appears in `failed`, regardless of what happened to
its siblings. -/
theorem performBulkDeletion_settle_all (fault : Nat → Option String) (b : Nat)
    (events : List (CandidateEvent × Outcome)) (e : CandidateEvent)
    (hb : 1 ≤ b) (hf : ∀ j, fault j = none) :
    ((e, Outcome.fulfilled) ∈ events →
      mkSuccess e ∈ (performBulkDeletion fault b events).successful) ∧
    (∀ reason, (e, Outcome.rejected reason) ∈ events →
      mkFailure e reason ∈ (performBulkDeletion fault b events).failed) := by
  unfold performBulkDeletion
  rw [runChunks_spec]
  simp only [List.nil_append]
  rw [chunksSucc_fault_free fault hf, chunksFail_fault_free fault hf,
    chunksOf_flatten b hb]
  constructor
  · intro hmem
    exact List.mem_filterMap.mpr ⟨(e, Outcome.fulfilled), hmem, rfl⟩
  · intro reason hmem
    exact List.mem_filterMap.mpr ⟨(e, Outcome.rejected reason), hmem, rfl⟩

/-- Witness for `performBulkDeletion_settle_all`: the spec scenario — a
chunk of three where only the second event errors; the other two land in
`successful` and the erroring one lands in `failed`. -/
theorem performBulkDeletion_settle_all_witness :
    mkSuccess (wEvent "e1") ∈ (performBulkDeletion wNoFault 10 wThree).successful ∧
    mkFailure (wEvent "e2") wErr ∈ (performBulkDeletion wNoFault 10 wThree).failed ∧
    mkSuccess (wEvent "e3") ∈ (performBulkDeletion wNoFault 10 wThree).successful := by
  refine ⟨?_, ?_, ?_⟩
  · exact (performBulkDeletion_settle_all wNoFault 10 wThree (wEvent "e1")
      (by decide) (fun _ => rfl)).1 (by decide)
  · exact (performBulkDeletion_settle_all wNoFault 10 wThree (wEvent "e2")
      (by decide) (fun _ => rfl)).2 wErr (by decide)
  · exact (performBulkDeletion_settle_all wNoFault 10 wThree (wEvent "e3")
      (by decide) (fun _ => rfl)).1 (by decide)

/-- Claim C10: in a fault-free run the report sequences are exactly the
order-preserving selections of the input — `successful` is the input
sublist of fulfilled events and `failed` the input sublist of rejected
events, both in input order (settlement is appended by submission index,
not completion time). -/
theorem performBulkDeletion_input_order (fault : Nat → Option String) (b : Nat)
    (events : List (CandidateEvent × Outcome))
    (hb : 1 ≤ b) (hf : ∀ j, fault j = none) :
    (performBulkDeletion fault b events).successful = succOf events ∧
    (performBulkDeletion fault b events).failed = failOf events := by
  unfold performBulkDeletion
  rw [runChunks_spec]
  simp only [List.nil_append]
  rw [chunksSucc_fault_free fault hf, chunksFail_fault_free fault hf,
    chunksOf_flatten b hb]
  exact ⟨rfl, rfl⟩

/-- Witness for `performBulkDeletion_input_order` on the five-event
fixture with batch size 2 and no faults. -/
theorem performBulkDeletion_input_order_witness :
    (performBulkDeletion wNoFault 2 wEvents).successful = succOf wEvents ∧
    (performBulkDeletion wNoFault 2 wEvents).failed = failOf wEvents :=
  performBulkDeletion_input_order wNoFault 2 wEvents (by decide) (fun _ => rfl)

theorem chunksFail_mem_of_fault (fault : Nat → Option String) (msg : String)
    (cs : List (List (CandidateEvent × Outcome))) :
    ∀ (i j : Nat), fault (i + j) = some msg →
      ∀ p ∈ cs.getD j [], mkFaultFailure p.1 msg ∈ chunksFail fault i cs := by
  induction cs with
  | nil =>
    intro i j h p hp
    simp [List.getD] at hp
  | cons c rest ih =>
    intro i j h p hp
    cases j with
    | zero =>
      simp only [Nat.add_zero] at h
      simp only [List.getD_cons_zero] at hp
      simp only [chunksFail, h]
      exact List.mem_append_left _ (List.mem_map.mpr ⟨p, hp, rfl⟩)
    | succ j =>
      have h' : fault ((i + 1) + j) = some msg := by
        rw [show (i + 1) + j = i + (j + 1) by omega]
        exact h
      simp only [List.getD_cons_succ] at hp
      simp only [chunksFail]
      exact List.mem_append_right _ (ih (i + 1) j h' p hp)

theorem chunksSucc_mem_of_no_fault (fault : Nat → Option String)
    (cs : List (List (CandidateEvent × Outcome))) :
    ∀ (i j : Nat), fault (i + j) = none →
      ∀ e, (e, Outcome.fulfilled) ∈ cs.getD j [] →
        mkSuccess e ∈ chunksSucc fault i cs := by
  induction cs with
  | nil =>
    intro i j h e hp
    simp [List.getD] at hp
  | cons c rest ih =>
    intro i j h e hp
    cases j with
    | zero =>
      simp only [Nat.add_zero] at h
      simp only [List.getD_cons_zero] at hp
      simp only [chunksSucc, h]
      exact List.mem_append_left _
        (List.mem_filterMap.mpr ⟨(e, Outcome.fulfilled), hp, rfl⟩)
    | succ j =>
      have h' : fault ((i + 1) + j) = none := by
        rw [show (i + 1) + j = i + (j + 1) by omega]
        exact h
      simp only [List.getD_cons_succ] at hp
      simp only [chunksSucc]
      exact List.mem_append_right _ (ih (i + 1) j h' e hp)

/-- Claim C6: when chunk `j` faults with message `msg`, every event of
that chunk is recorded as a failure carrying the engine message and
`retryable = true`, and the run continues: fulfilled events of any
fault-free chunk (in particular chunks after `j`) still reach
`successful`. The run itself is a total function, so no exception escapes
it. -/
theorem performBulkDeletion_chunk_fault (fault : Nat → Option String) (b : Nat)
    (events : List (CandidateEvent × Outcome)) (j : Nat) (msg : String)
    (hj : fault j = some msg) :
    (∀ p ∈ (chunksOf b events).getD j [],
      mkFaultFailure p.1 msg ∈ (performBulkDeletion fault b events).failed) ∧
    (∀ k, fault k = none →
      ∀ e, (e, Outcome.fulfilled) ∈ (chunksOf b events).getD k [] →
        mkSuccess e ∈ (performBulkDeletion fault b events).successful) := by
  unfold performBulkDeletion
  rw [runChunks_spec]
  simp only [List.nil_append]
  constructor
  · intro p hp
    exact chunksFail_mem_of_fault fault msg (chunksOf b events) 0 j
      (by simpa using hj) p hp
  · intro k hk e hp
    exact chunksSucc_mem_of_no_fault fault (chunksOf b events) 0 k
      (by simpa using hk) e hp

/-- Witness for `performBulkDeletion_chunk_fault`: with batch size 2 over
the five-event fixture, chunk 1 is `[e3, e4]` and faults with the engine
message, so `e3` is recorded as a retryable failure with that message,
while the fulfilled `e5` of the later fault-free chunk 2 still reaches
`successful`. -/
theorem performBulkDeletion_chunk_fault_witness :
    mkFaultFailure (wEvent "e3") "engine failure" ∈
      (performBulkDeletion wFault 2 wEvents).failed ∧
    mkSuccess (wEvent "e5") ∈ (performBulkDeletion wFault 2 wEvents).successful := by
  have h := performBulkDeletion_chunk_fault wFault 2 wEvents 1 "engine failure" (by decide)
  exact ⟨h.1 (wEvent "e3", Outcome.fulfilled) (by decide),
    h.2 2 (by decide) (wEvent "e5") (by decide)⟩

theorem retainEvent_iff (c : FilterCriteria) (e : PopupEvent) :
    retainEvent c e = true ↔ RetainSpec c e := by
  unfold retainEvent RetainSpec
  cases hcd : e.canDelete with
  | false => simp
  | true =>
    by_cases hkw : (jsToLower c.titleFilterValue).trim = "" <;>
    by_cases hinc : strIncludes (jsToLower e.title) ((jsToLower c.titleFilterValue).trim) = true <;>
    cases hst : e.startTime <;>
    cases hf : c.fromDate <;>
    cases hg : c.toDate <;>
    simp [hkw, hinc]

/-- Claim C7: the popup filter retains an event iff it is deletable, the
(lowercased, trimmed) keyword is empty or occurs in the lowercased title,
and each configured date bound is respected whenever the start time is
known; events with unknown start time are never excluded by the date
filters. The filter is stable, so membership in the output is membership
in the input plus the retention condition. -/
theorem updateFilteredEvents_mem (evs : List PopupEvent) (c : FilterCriteria)
    (e : PopupEvent) :
    e ∈ updateFilteredEvents c evs ↔ e ∈ evs ∧ RetainSpec c e := by
  rw [updateFilteredEvents, List.mem_filter, retainEvent_iff]

end CalendarBulkDelete
